import Mathlib

/-!
Verification of the session-state synchronization pipeline of the
claude-code-ui repository.

The development shallowly embeds the TypeScript source:

* the daemon entry point (session watcher wiring, recency filter,
  initial publish loop, clear-sessions wiring),
* `ApiServer` from `packages/daemon/src/api.ts` (stop, start-loop
  validation, the iteration loop, clear-sessions endpoint),
* the UI helpers from `packages/ui/src/hooks/useSessions.ts` and
  `packages/ui/src/components/RepoSection.tsx`
  (`calculateRepoActivityScore`, `groupSessionsByRepo`,
  `getEffectiveStatus`).

Conventions: JavaScript timestamps (`Date.now()`, `new Date(x).getTime()`)
are modelled as integer milliseconds; fallible `await`s are modelled as
`Except String` values supplied as parameters; JS `Map`s are modelled as
association lists in insertion order.
-/

/-- Session status classification (`SessionStatusSchema` in
`packages/ui/src/data/schema.ts`: `working | waiting | idle`). -/
inductive SessionStatus where
  | working
  | waiting
  | idle
deriving DecidableEq, Repr

/-- CI check status (`CIStatusSchema` in `schema.ts`). -/
inductive CIStatus where
  | pending
  | running
  | success
  | failure
  | cancelled
  | unknown
deriving DecidableEq, Repr

/-- One named CI check of a PR (`ciChecks` entries in `PRInfoSchema`). -/
structure CICheck where
  name : String
  status : CIStatus
  url : Option String
deriving DecidableEq, Repr

/-- Associated pull-request metadata (`PRInfoSchema` in `schema.ts`). -/
structure PRInfo where
  number : Int
  url : String
  title : String
  ciStatus : CIStatus
  ciChecks : List CICheck
  lastChecked : String
deriving DecidableEq, Repr

/-- Role of a recent-output entry (`RecentOutputSchema` in `schema.ts`). -/
inductive OutputRole where
  | user
  | assistant
  | tool
deriving DecidableEq, Repr

/-- One recent-output entry (`RecentOutputSchema` in `schema.ts`). -/
structure RecentOutput where
  role : OutputRole
  content : String
deriving DecidableEq, Repr

/-- The UI-side session entity (`SessionSchema` in `schema.ts`).
`lastActivityAt` is an ISO timestamp string in the source; it is modelled
here as the integer millisecond value `new Date(lastActivityAt).getTime()`
evaluates to, which is the only way the UI code consumes it. -/
structure Session where
  sessionId : String
  cwd : String
  gitBranch : Option String
  gitRepoUrl : Option String
  gitRepoId : Option String
  originalPrompt : String
  status : SessionStatus
  lastActivityAt : Int
  messageCount : Int
  hasPendingToolUse : Bool
  pendingTool : Option (String × String)
  goal : String
  summary : String
  recentOutput : List RecentOutput
  pr : Option PRInfo
deriving DecidableEq, Repr

/-- The nested status object of the daemon watcher's `SessionState`.
The daemon entry point reads `session.status.lastActivityAt` (the recency
filter) and passes `session.status` to `formatStatus`; per the spec's data
model the status carries the coarse classification, the activity timestamp
and the pending-tool flag.  `lastActivityAt` is modelled as parsed integer
milliseconds, as consumed by `new Date(...).getTime()`. -/
structure SessionStatusInfo where
  state : SessionStatus
  lastActivityAt : Int
  hasPendingToolUse : Bool
  pendingTool : Option (String × String)
deriving DecidableEq, Repr

/-- The daemon watcher's `SessionState` (imported from `watcher.js` by the
daemon entry point; field inventory per spec section 3, with the nested
`status` object the entry point's code dereferences). -/
structure SessionState where
  sessionId : String
  cwd : String
  gitBranch : Option String
  gitRepoUrl : Option String
  gitRepoId : Option String
  status : SessionStatusInfo
  messageCount : Int
  goal : String
  summary : String
deriving DecidableEq, Repr

/-- Kind of a watcher event (`SessionEvent` of `watcher.js`, as dispatched
on by the daemon entry point: `created`, `updated`, `deleted`). -/
inductive SessionEventType where
  | created
  | updated
  | deleted
deriving DecidableEq, Repr

/-- A watcher event `{ type, session }` as consumed by the daemon entry
point's `watcher.on("session", ...)` handler. -/
structure SessionEvent where
  type : SessionEventType
  session : SessionState
deriving DecidableEq, Repr

/-- Stream operations accepted by `streamServer.publishSession`. -/
inductive Operation where
  | insert
  | update
  | delete
deriving DecidableEq, Repr

/-- JavaScript `parseInt(s, 10)`: optional sign, then the longest leading
run of decimal digits; `none` models `NaN` (no digits). -/
def digitsVal (cs : List Char) : Nat :=
  cs.foldl (fun a c => a * 10 + (c.toNat - 48)) 0

/-- JavaScript `parseInt(s, 10)` on a string (no leading whitespace). -/
def jsParseInt (s : String) : Option Int :=
  let p : Int × List Char :=
    match s.toList with
    | '-' :: r => (-1, r)
    | '+' :: r => (1, r)
    | r => (1, r)
  let ds := p.2.takeWhile Char.isDigit
  if ds.isEmpty then none else some (p.1 * (digitsVal ds : Int))

/-- `MAX_AGE_HOURS = parseInt(process.env.MAX_AGE_HOURS ?? "24", 10)`
(daemon entry point); `none` for the environment variable models an unset
variable, `none` in the result models `NaN`. -/
def MAX_AGE_HOURS (env : Option String) : Option Int :=
  jsParseInt (env.getD "24")

/-- `MAX_AGE_MS = MAX_AGE_HOURS * 60 * 60 * 1000` (daemon entry point). -/
def MAX_AGE_MS (env : Option String) : Option Int :=
  (MAX_AGE_HOURS env).map (fun h => h * 60 * 60 * 1000)

/-- The debounce quiet period the daemon entry point passes to the session
watcher: `new SessionWatcher({ debounceMs: 300 })`. -/
def daemonDebounceMs : Nat := 300

/-- `isRecentSession` (daemon entry point):
`Date.now() - new Date(session.status.lastActivityAt).getTime() < MAX_AGE_MS`.
`now` and `maxAgeMs` stand for `Date.now()` and the computed `MAX_AGE_MS`. -/
def isRecentSession (now maxAgeMs : Int) (session : SessionState) : Bool :=
  now - session.status.lastActivityAt < maxAgeMs

/-- Operation chosen by the session event handler:
`type === "created" ? "insert" : type === "deleted" ? "delete" : "update"`. -/
def eventOperation : SessionEventType → Operation
  | SessionEventType.created => Operation.insert
  | SessionEventType.deleted => Operation.delete
  | SessionEventType.updated => Operation.update

/-- The publish decision of the daemon's session event handler: the early
return `if (!isRecentSession(session) && type !== "deleted") return;`
suppresses the publish, otherwise the session is published with
`eventOperation`. -/
def sessionHandlerDecision (now maxAgeMs : Int) (ev : SessionEvent) :
    Option (SessionState × Operation) :=
  if !isRecentSession now maxAgeMs ev.session ∧ ev.type ≠ SessionEventType.deleted then
    none
  else
    some (ev.session, eventOperation ev.type)

/-- `IDLE_TIMEOUT_MS = 60 * 60 * 1000` (`RepoSection.tsx`). -/
def IDLE_TIMEOUT_MS : Int := 60 * 60 * 1000

/-- `getEffectiveStatus` (`RepoSection.tsx`): a session inactive for more
than one hour is reported idle regardless of its stored status. -/
def getEffectiveStatus (now : Int) (session : Session) : SessionStatus :=
  if now - session.lastActivityAt > IDLE_TIMEOUT_MS then
    SessionStatus.idle
  else
    session.status

/-- C1: for a session event whose kind is not `deleted`, the handler
publishes the session to the stream exactly when
`now - lastActivityAt < maxAge`; an event of kind `deleted` is always
published, as a `delete` operation, regardless of the session's age. -/
theorem handler_publishes_iff_recent_except_deleted (now maxAgeMs : Int)
    (ev : SessionEvent) :
    (ev.type ≠ SessionEventType.deleted →
      ((sessionHandlerDecision now maxAgeMs ev).isSome ↔
        now - ev.session.status.lastActivityAt < maxAgeMs)) ∧
    (ev.type = SessionEventType.deleted →
      sessionHandlerDecision now maxAgeMs ev =
        some (ev.session, Operation.delete)) := by
  constructor
  · intro hne
    by_cases hr : now - ev.session.status.lastActivityAt < maxAgeMs
    · simp [sessionHandlerDecision, isRecentSession, hr]
    · simp [sessionHandlerDecision, isRecentSession, hr, hne]
  · intro hdel
    simp [sessionHandlerDecision, hdel, eventOperation]

/-- Witness for C1 at concrete inputs: an aged-out session (activity 100ms
ago with a 10ms max age) is suppressed when updated but still published as
a delete when deleted. -/
theorem handler_publishes_iff_recent_except_deleted_witness :
    (sessionHandlerDecision 1000 10
      ⟨SessionEventType.deleted,
        ⟨"abc123", "/tmp/w", none, none, none,
          ⟨SessionStatus.working, 900, false, none⟩, 3, "g", "s"⟩⟩ =
      some (⟨"abc123", "/tmp/w", none, none, none,
          ⟨SessionStatus.working, 900, false, none⟩, 3, "g", "s"⟩,
        Operation.delete)) ∧
    ¬ (sessionHandlerDecision 1000 10
      ⟨SessionEventType.updated,
        ⟨"abc123", "/tmp/w", none, none, none,
          ⟨SessionStatus.working, 900, false, none⟩, 3, "g", "s"⟩⟩).isSome := by
  constructor
  · exact (handler_publishes_iff_recent_except_deleted 1000 10 _).2 rfl
  · intro h
    have := ((handler_publishes_iff_recent_except_deleted 1000 10
      ⟨SessionEventType.updated,
        ⟨"abc123", "/tmp/w", none, none, none,
          ⟨SessionStatus.working, 900, false, none⟩, 3, "g", "s"⟩⟩).1
      (by decide)).mp h
    exact absurd this (by decide)

/-- C3: the recency filter is a function of the session's activity
timestamp and the current instant alone — two sessions agreeing on
`lastActivityAt`, evaluated at the same instant, get the same decision no
matter how every other field differs. -/
theorem isRecentSession_depends_only_on_lastActivityAt
    (now maxAgeMs : Int) (s₁ s₂ : SessionState)
    (h : s₁.status.lastActivityAt = s₂.status.lastActivityAt) :
    isRecentSession now maxAgeMs s₁ = isRecentSession now maxAgeMs s₂ := by
  simp [isRecentSession, h]

/-- Witness for C3: two sessions differing in every field except the
activity timestamp get the same decision. -/
theorem isRecentSession_depends_only_on_lastActivityAt_witness :
    isRecentSession 5000 100
      ⟨"a", "/x", some "main", some "u", some "o/r",
        ⟨SessionStatus.working, 4950, true, some ("Bash", "ls")⟩, 7, "g1", "s1"⟩ =
    isRecentSession 5000 100
      ⟨"b", "/y", none, none, none,
        ⟨SessionStatus.idle, 4950, false, none⟩, 0, "g2", "s2"⟩ :=
  isRecentSession_depends_only_on_lastActivityAt 5000 100 _ _ rfl

/-- C7: with `MAX_AGE_HOURS` unset the daemon's maximum session age is
24 hours (86,400,000 ms), and the watcher is constructed with a 300 ms
debounce quiet period. -/
theorem daemon_default_configuration :
    MAX_AGE_MS none = some (24 * 60 * 60 * 1000) ∧ daemonDebounceMs = 300 := by
  constructor
  · rfl
  · rfl

/-- C8: `getEffectiveStatus` reports `idle` whenever more than one hour
(3,600,000 ms) has elapsed since `lastActivityAt`, regardless of the
stored status, and otherwise returns the stored status unchanged. -/
theorem getEffectiveStatus_idle_after_one_hour (now : Int) (s : Session) :
    (now - s.lastActivityAt > 3600000 →
      getEffectiveStatus now s = SessionStatus.idle) ∧
    (¬ now - s.lastActivityAt > 3600000 →
      getEffectiveStatus now s = s.status) := by
  constructor
  · intro h
    simp only [getEffectiveStatus, IDLE_TIMEOUT_MS]
    rw [if_pos (by omega)]
  · intro h
    simp only [getEffectiveStatus, IDLE_TIMEOUT_MS]
    rw [if_neg (by omega)]

/-- Witness for C8: a session stored as `working` but 2 hours stale is
reported idle. -/
theorem getEffectiveStatus_idle_after_one_hour_witness :
    getEffectiveStatus 7200001
      ⟨"a", "/x", none, none, none, "p", SessionStatus.working, 0, 1, false,
        none, "g", "s", [], none⟩ = SessionStatus.idle :=
  (getEffectiveStatus_idle_after_one_hour 7200001 _).1 (by decide)

/-- `watcher.getSessions()`: the watcher's store, modelled as an
association list from session id to state in insertion order (a JS `Map`). -/
def storeValues (store : List (String × SessionState)) : List SessionState :=
  store.map Prod.snd

/-- The publish requests issued by the daemon's startup loop:
`Array.from(allSessions.values()).filter(isRecentSession)`, then one
`publishSession(session, "insert")` per remaining session, in order. -/
def initialPublishes (now maxAgeMs : Int) (sessions : List SessionState) :
    List (SessionState × Operation) :=
  (sessions.filter (isRecentSession now maxAgeMs)).map
    (fun s => (s, Operation.insert))


/-- In a store with no duplicate keys whose values carry their own key as
`sessionId`, counting entries whose value matches a given session id finds
exactly the one entry with that key. -/
theorem countP_entries_by_key (q : SessionState → Bool) :
    ∀ (store : List (String × SessionState)),
      (store.map Prod.fst).Nodup →
      (∀ p ∈ store, (p.2).sessionId = p.1) →
      ∀ id s, (id, s) ∈ store →
        store.countP (fun e => decide (e.2.sessionId = id) && q e.2) =
          if q s then 1 else 0 := by
  intro store
  induction store with
  | nil =>
    intro _ _ id s hmem
    simp at hmem
  | cons hd tl ih =>
    intro hnodup hid id s hmem
    obtain ⟨k, v⟩ := hd
    have hcons : (k :: tl.map Prod.fst).Nodup := by simpa using hnodup
    have hknotin : k ∉ tl.map Prod.fst := (List.nodup_cons.mp hcons).1
    have htlnodup : (tl.map Prod.fst).Nodup := (List.nodup_cons.mp hcons).2
    have hidtl : ∀ p ∈ tl, (p.2).sessionId = p.1 :=
      fun p hp => hid p (List.mem_cons_of_mem _ hp)
    have hvk : v.sessionId = k := hid (k, v) (List.mem_cons_self _ _)
    rcases List.mem_cons.mp hmem with heq | htl
    · have hk : id = k := congrArg Prod.fst heq
      have hv : s = v := congrArg Prod.snd heq
      subst hk
      subst hv
      have htl0 : tl.countP (fun e => decide (e.2.sessionId = id) && q e.2) = 0 := by
        rw [List.countP_eq_zero]
        intro e he
        have hek : e.2.sessionId = e.1 := hidtl e he
        have hne : e.1 ≠ id := fun hc =>
          hknotin (hc ▸ List.mem_map.mpr ⟨e, he, rfl⟩)
        simp [hek, hne]
      rw [List.countP_cons, htl0]
      simp [hvk]
    · have hne : k ≠ id := fun hc =>
        hknotin (hc ▸ List.mem_map.mpr ⟨(id, s), htl, rfl⟩)
      rw [List.countP_cons, ih htlnodup hidtl id s htl]
      simp [hvk, hne]

/-- C2: after the startup scan, the daemon publishes only `insert`
records, and for each store entry it publishes exactly one record carrying
that entry's session id when the session satisfies the recency predicate
and zero records otherwise. -/
theorem initial_publish_one_insert_per_recent (now maxAgeMs : Int)
    (store : List (String × SessionState))
    (hkeys : (store.map Prod.fst).Nodup)
    (hid : ∀ p ∈ store, (p.2).sessionId = p.1) :
    (∀ r ∈ initialPublishes now maxAgeMs (storeValues store),
       r.2 = Operation.insert) ∧
    (∀ p ∈ store,
       (initialPublishes now maxAgeMs (storeValues store)).countP
           (fun r => decide (r.1.sessionId = p.1)) =
         if isRecentSession now maxAgeMs p.2 then 1 else 0) := by
  constructor
  · intro r hr
    rcases List.mem_map.mp hr with ⟨s, _, hs⟩
    exact hs ▸ rfl
  · intro p hp
    obtain ⟨id, s⟩ := p
    have hcount := countP_entries_by_key
      (isRecentSession now maxAgeMs) store hkeys hid id s hp
    simpa [initialPublishes, storeValues, List.countP_map,
      List.countP_filter, Function.comp_def] using hcount

/-- Witness for C2 at a concrete two-entry store: the recent session is
published exactly once, the stale one not at all. -/
theorem initial_publish_one_insert_per_recent_witness :
    ((initialPublishes 1000000 100000 (storeValues
      [("a", ⟨"a", "/x", none, none, none,
          ⟨SessionStatus.working, 950000, false, none⟩, 1, "g", "s"⟩),
       ("b", ⟨"b", "/y", none, none, none,
          ⟨SessionStatus.idle, 0, false, none⟩, 2, "g", "s"⟩)])).countP
        (fun r => decide (r.1.sessionId = "a")) = 1) ∧
    ((initialPublishes 1000000 100000 (storeValues
      [("a", ⟨"a", "/x", none, none, none,
          ⟨SessionStatus.working, 950000, false, none⟩, 1, "g", "s"⟩),
       ("b", ⟨"b", "/y", none, none, none,
          ⟨SessionStatus.idle, 0, false, none⟩, 2, "g", "s"⟩)])).countP
        (fun r => decide (r.1.sessionId = "b")) = 0) := by
  constructor
  · exact ((initial_publish_one_insert_per_recent 1000000 100000 _
      (by decide)
      (by intro p hp; fin_cases hp <;> rfl)).2
      ("a", ⟨"a", "/x", none, none, none,
        ⟨SessionStatus.working, 950000, false, none⟩, 1, "g", "s"⟩)
      (by simp)).trans (by decide)
  · exact ((initial_publish_one_insert_per_recent 1000000 100000 _
      (by decide)
      (by intro p hp; fin_cases hp <;> rfl)).2
      ("b", ⟨"b", "/y", none, none, none,
        ⟨SessionStatus.idle, 0, false, none⟩, 2, "g", "s"⟩)
      (by simp)).trans (by decide)

/-- Outcome of the daemon's session event handler after the try/catch
around `streamServer.publishSession` (a failed publish is logged via
`console.error` and the handler returns normally). -/
inductive HandlerOutcome where
  | filtered
  | published (session : SessionState) (op : Operation)
  | publishFailed (session : SessionState) (op : Operation) (err : String)
deriving DecidableEq, Repr

/-- The daemon's session event handler including its try/catch:
`publishResult` models the promise `publishSession(session, operation)`
returns.  An `Except.error` result of the whole handler would model an
exception escaping the handler; the catch block turns a publish failure
into a logged `publishFailed` outcome instead. -/
def handleSessionEvent (now maxAgeMs : Int) (ev : SessionEvent)
    (publishResult : SessionState → Operation → Except String Unit) :
    Except String HandlerOutcome :=
  match sessionHandlerDecision now maxAgeMs ev with
  | none => Except.ok HandlerOutcome.filtered
  | some (s, op) =>
    match publishResult s op with
    | Except.ok _ => Except.ok (HandlerOutcome.published s op)
    | Except.error e => Except.ok (HandlerOutcome.publishFailed s op e)

/-- The daemon's initial publish loop: each iteration wraps its own
`publishSession` call in try/catch, records success or the logged failure,
and moves on to the next session. -/
def publishInitialLoop (publishResult : SessionState → Except String Unit) :
    List SessionState → Except String (List (SessionState × Bool))
  | [] => Except.ok []
  | s :: rest =>
    let attempt : SessionState × Bool :=
      match publishResult s with
      | Except.ok _ => (s, true)
      | Except.error _ => (s, false)
    match publishInitialLoop publishResult rest with
    | Except.ok results => Except.ok (attempt :: results)
    | Except.error e => Except.error e

/-- The daemon's startup publish phase: filter the store to recent
sessions, then run the publish loop over them. -/
def runInitialPublish (now maxAgeMs : Int)
    (publishResult : SessionState → Except String Unit)
    (sessions : List SessionState) :
    Except String (List (SessionState × Bool)) :=
  publishInitialLoop publishResult
    (sessions.filter (isRecentSession now maxAgeMs))

/-- The initial publish loop completes normally for every pattern of
publish failures, attempting every session handed to it in order. -/
theorem publishInitialLoop_attempts_all
    (publishResult : SessionState → Except String Unit) :
    ∀ sessions : List SessionState, ∃ results,
      publishInitialLoop publishResult sessions = Except.ok results ∧
      results.map Prod.fst = sessions := by
  intro sessions
  induction sessions with
  | nil => exact ⟨[], rfl, rfl⟩
  | cons s rest ih =>
    obtain ⟨results, hok, hmap⟩ := ih
    refine ⟨(match publishResult s with
      | Except.ok _ => (s, true)
      | Except.error _ => (s, false)) :: results, ?_, ?_⟩
    · simp only [publishInitialLoop, hok]
    · rcases hpub : publishResult s with u | e <;> simp [hpub, hmap]

/-- C4: a failed `publishSession` is isolated.  The live event handler
never lets a publish error escape, and turns it into a logged
`publishFailed` outcome; the startup loop completes normally and attempts
every recent session no matter which publishes fail, so one session's
failure never prevents another session's publish. -/
theorem publish_failures_isolated (now maxAgeMs : Int) :
    (∀ ev publishResult, ∃ out,
       handleSessionEvent now maxAgeMs ev publishResult = Except.ok out) ∧
    (∀ ev publishResult e s op,
       sessionHandlerDecision now maxAgeMs ev = some (s, op) →
       publishResult s op = Except.error e →
       handleSessionEvent now maxAgeMs ev publishResult =
         Except.ok (HandlerOutcome.publishFailed s op e)) ∧
    (∀ publishResult (sessions : List SessionState), ∃ results,
       runInitialPublish now maxAgeMs publishResult sessions =
         Except.ok results ∧
       results.map Prod.fst =
         sessions.filter (isRecentSession now maxAgeMs)) := by
  refine ⟨?_, ?_, ?_⟩
  · intro ev publishResult
    unfold handleSessionEvent
    rcases sessionHandlerDecision now maxAgeMs ev with _ | ⟨s, op⟩
    · exact ⟨HandlerOutcome.filtered, rfl⟩
    · rcases hpub : publishResult s op with e | u
      · exact ⟨HandlerOutcome.publishFailed s op e, by simp [hpub]⟩
      · exact ⟨HandlerOutcome.published s op, by simp [hpub]⟩
  · intro ev publishResult e s op hdec hpub
    unfold handleSessionEvent
    rw [hdec]
    show (match publishResult s op with
      | Except.ok _ => Except.ok (HandlerOutcome.published s op)
      | Except.error e => Except.ok (HandlerOutcome.publishFailed s op e)) = _
    rw [hpub]
  · intro publishResult sessions
    exact publishInitialLoop_attempts_all publishResult _

/-- Witness for C4: with a stream server that rejects every publish, the
handler still returns normally with a logged failure, and the startup loop
still attempts both recent sessions. -/
theorem publish_failures_isolated_witness :
    (handleSessionEvent 1000 100
      ⟨SessionEventType.deleted,
        ⟨"a", "/x", none, none, none,
          ⟨SessionStatus.working, 950, false, none⟩, 1, "g", "s"⟩⟩
      (fun _ _ => Except.error "disk full") =
      Except.ok (HandlerOutcome.publishFailed
        ⟨"a", "/x", none, none, none,
          ⟨SessionStatus.working, 950, false, none⟩, 1, "g", "s"⟩
        Operation.delete "disk full")) ∧
    (∃ results,
      runInitialPublish 1000 100 (fun _ => Except.error "disk full")
        [⟨"a", "/x", none, none, none,
            ⟨SessionStatus.working, 950, false, none⟩, 1, "g", "s"⟩,
         ⟨"b", "/y", none, none, none,
            ⟨SessionStatus.idle, 940, false, none⟩, 2, "g", "s"⟩] =
        Except.ok results ∧
      results.map Prod.fst =
        [⟨"a", "/x", none, none, none,
            ⟨SessionStatus.working, 950, false, none⟩, 1, "g", "s"⟩,
         ⟨"b", "/y", none, none, none,
            ⟨SessionStatus.idle, 940, false, none⟩, 2, "g", "s"⟩]) := by
  constructor
  · exact (publish_failures_isolated 1000 100).2.1 _ _ "disk full" _
      Operation.delete rfl rfl
  · obtain ⟨results, hok, hmap⟩ := (publish_failures_isolated 1000 100).2.2
      (fun _ => Except.error "disk full")
      [⟨"a", "/x", none, none, none,
          ⟨SessionStatus.working, 950, false, none⟩, 1, "g", "s"⟩,
       ⟨"b", "/y", none, none, none,
          ⟨SessionStatus.idle, 940, false, none⟩, 2, "g", "s"⟩]
    exact ⟨results, hok, hmap.trans (by decide)⟩

/-- Response body written by `ApiServer.handleClearSessions`:
`successTrue` stands for `JSON.stringify({ success: true })` and
`errorMsg e` for `JSON.stringify({ error: String(error) })`. -/
inductive ClearBody where
  | successTrue
  | errorMsg (e : String)
deriving DecidableEq, Repr

/-- `ApiServer.handleClearSessions` (api.ts): returns the HTTP status code
and body written, and the number of times the configured `onClearSessions`
callback was invoked.  The callback argument models the configured
callback by the result its single invocation would produce (`none` when no
callback is configured). -/
def handleClearSessions (onClearSessions : Option (Except String Unit)) :
    (Nat × ClearBody) × Nat :=
  match onClearSessions with
  | some (Except.ok _) => ((200, ClearBody.successTrue), 1)
  | some (Except.error e) => ((500, ClearBody.errorMsg e), 1)
  | none => ((200, ClearBody.successTrue), 0)

/-- The daemon entry point wires `onClearSessions` to
`async () => { await streamServer.clearAllSessions(); }`; `clearAllResult`
models the promise `clearAllSessions()` returns, so the invocation count
of `handleClearSessions` is the invocation count of `clearAllSessions`. -/
def daemonClearSessionsRequest (clearAllResult : Except String Unit) :
    (Nat × ClearBody) × Nat :=
  handleClearSessions (some clearAllResult)

/-- C5: a POST to /api/sessions/clear invokes the wired
`clearAllSessions` exactly once and answers 200 with `{ success: true }`
when it resolves, 500 carrying the error when it rejects. -/
theorem clear_sessions_invokes_clearAll_once
    (clearAllResult : Except String Unit) :
    ((daemonClearSessionsRequest clearAllResult).2 = 1) ∧
    (∀ u, clearAllResult = Except.ok u →
      (daemonClearSessionsRequest clearAllResult).1 =
        (200, ClearBody.successTrue)) ∧
    (∀ e, clearAllResult = Except.error e →
      (daemonClearSessionsRequest clearAllResult).1 =
        (500, ClearBody.errorMsg e)) := by
  refine ⟨?_, ?_, ?_⟩
  · rcases clearAllResult with e | u <;> rfl
  · intro u h
    rw [h]
    rfl
  · intro e h
    rw [h]
    rfl

/-- Witness for C5: a resolving `clearAllSessions` yields 200/success with
one invocation, a rejecting one yields 500 with the error. -/
theorem clear_sessions_invokes_clearAll_once_witness :
    (daemonClearSessionsRequest (Except.ok ()) =
      ((200, ClearBody.successTrue), 1)) ∧
    (daemonClearSessionsRequest (Except.error "log append failed") =
      ((500, ClearBody.errorMsg "log append failed"), 1)) := by
  constructor
  · have h1 := (clear_sessions_invokes_clearAll_once (Except.ok ())).1
    have h2 := (clear_sessions_invokes_clearAll_once (Except.ok ())).2.1 () rfl
    exact Prod.ext h2 h1
  · have h1 := (clear_sessions_invokes_clearAll_once
      (Except.error "log append failed")).1
    have h2 := (clear_sessions_invokes_clearAll_once
      (Except.error "log append failed")).2.2 "log append failed" rfl
    exact Prod.ext h2 h1

/-- Status of an iteration loop (`LoopProcess.status` in api.ts). -/
inductive LoopStatus where
  | running
  | completed
  | failed
  | cancelled
deriving DecidableEq, Repr

/-- An entry of `ApiServer.activeLoops` (`LoopProcess` in api.ts).
`process` models the `ChildProcess` handle as an opaque id; it is `none`
while the field still holds the initial `null` placeholder. -/
structure LoopProcess where
  id : String
  process : Option Nat
  iterations : Int
  currentIteration : Int
  status : LoopStatus
  output : List String
  startedAt : String
deriving DecidableEq, Repr

/-- Externally observable effects of `ApiServer.stop`, in order. -/
inductive StopAction where
  | sigterm (id : String)
  | clearLoops
  | closeServer
  | resolveWithoutServer
deriving DecidableEq, Repr

/-- The mutable state of an `ApiServer` that `stop()` touches: the HTTP
server handle (`none` until `start()` assigns it) and `activeLoops` as an
insertion-ordered list. -/
structure ApiServerState where
  server : Option Nat
  activeLoops : List LoopProcess
deriving DecidableEq, Repr

/-- The `for (const [id, loop] of this.activeLoops)` pass of
`ApiServer.stop`: every loop whose `process` is set and whose status is
`running` gets `SIGTERM` and its status set to `cancelled`; others are
left untouched.  Returns the loop objects after the pass and the kill
actions in iteration order. -/
def killPass : List LoopProcess → List LoopProcess × List StopAction
  | [] => ([], [])
  | loop :: rest =>
    let r := killPass rest
    if loop.process.isSome ∧ loop.status = LoopStatus.running then
      ({ loop with status := LoopStatus.cancelled } :: r.1,
       StopAction.sigterm loop.id :: r.2)
    else
      (loop :: r.1, r.2)

/-- `ApiServer.stop` (api.ts): kill pass over `activeLoops`, then
`activeLoops.clear()`, then `server.close(resolve)` when a server exists
or an immediate `resolve()` when it does not.  Returns the state after
`stop`, the loop objects as mutated by the kill pass, and the ordered
effect trace. -/
def apiStop (st : ApiServerState) :
    ApiServerState × List LoopProcess × List StopAction :=
  let r := killPass st.activeLoops
  ({ st with activeLoops := [] },
   r.1,
   r.2 ++ [StopAction.clearLoops] ++
     (match st.server with
      | some _ => [StopAction.closeServer]
      | none => [StopAction.resolveWithoutServer]))

/-- Every kill-pass action is a SIGTERM. -/
theorem killPass_actions_are_sigterms :
    ∀ loops : List LoopProcess, ∀ a ∈ (killPass loops).2, ∃ id,
      a = StopAction.sigterm id := by
  intro loops
  induction loops with
  | nil =>
    intro a ha
    simp [killPass] at ha
  | cons loop rest ih =>
    intro a ha
    by_cases h : loop.process.isSome ∧ loop.status = LoopStatus.running
    · simp only [killPass, if_pos h] at ha
      rcases List.mem_cons.mp ha with heq | htl
      · exact ⟨loop.id, heq⟩
      · exact ih a htl
    · simp only [killPass, if_neg h] at ha
      exact ih a ha

/-- The kill pass cancels and SIGTERMs exactly the running loops with a
live process handle, and keeps the rest unchanged. -/
theorem killPass_cancels_running :
    ∀ loops : List LoopProcess, ∀ l ∈ loops,
      (l.process.isSome ∧ l.status = LoopStatus.running →
        StopAction.sigterm l.id ∈ (killPass loops).2 ∧
        { l with status := LoopStatus.cancelled } ∈ (killPass loops).1) ∧
      (¬ (l.process.isSome ∧ l.status = LoopStatus.running) →
        l ∈ (killPass loops).1) := by
  intro loops
  induction loops with
  | nil =>
    intro l hl
    simp at hl
  | cons loop rest ih =>
    intro l hl
    rcases List.mem_cons.mp hl with heq | htl
    · subst heq
      constructor
      · intro h
        simp only [killPass, if_pos h]
        exact ⟨List.mem_cons_self _ _, List.mem_cons_self _ _⟩
      · intro h
        simp only [killPass, if_neg h]
        exact List.mem_cons_self _ _
    · constructor
      · intro h
        have hrec := ((ih l htl).1 h)
        by_cases hc : loop.process.isSome ∧ loop.status = LoopStatus.running
        · simp only [killPass, if_pos hc]
          exact ⟨List.mem_cons_of_mem _ hrec.1, List.mem_cons_of_mem _ hrec.2⟩
        · simp only [killPass, if_neg hc]
          exact ⟨hrec.1, List.mem_cons_of_mem _ hrec.2⟩
      · intro h
        have hrec := ((ih l htl).2 h)
        by_cases hc : loop.process.isSome ∧ loop.status = LoopStatus.running
        · simp only [killPass, if_pos hc]
          exact List.mem_cons_of_mem _ hrec
        · simp only [killPass, if_neg hc]
          exact List.mem_cons_of_mem _ hrec

/-- C6: `ApiServer.stop` first terminates in-flight work and then
releases the listener: every running loop (its process handle being set,
as it is from the moment the loop's first command is spawned) receives
SIGTERM and ends up cancelled, the `activeLoops` map is cleared after the
kill pass, the server is closed only after that (when one exists), and the
call resolves even when the server was never started. -/
theorem apiStop_cancels_then_clears_then_closes (st : ApiServerState)
    (hproc : ∀ l ∈ st.activeLoops, l.process.isSome) :
    (∀ l ∈ st.activeLoops, l.status = LoopStatus.running →
       StopAction.sigterm l.id ∈ (apiStop st).2.2 ∧
       { l with status := LoopStatus.cancelled } ∈ (apiStop st).2.1) ∧
    (∀ l ∈ st.activeLoops, l.status ≠ LoopStatus.running →
       l ∈ (apiStop st).2.1) ∧
    ((apiStop st).1.activeLoops = []) ∧
    (∃ kills,
       (apiStop st).2.2 = kills ++ [StopAction.clearLoops] ++
         (match st.server with
          | some _ => [StopAction.closeServer]
          | none => [StopAction.resolveWithoutServer]) ∧
       ∀ a ∈ kills, ∃ id, a = StopAction.sigterm id) := by
  refine ⟨?_, ?_, rfl, ?_⟩
  · intro l hl hrun
    have h := (killPass_cancels_running st.activeLoops l hl).1
      ⟨hproc l hl, hrun⟩
    refine ⟨?_, h.2⟩
    show StopAction.sigterm l.id ∈
      (killPass st.activeLoops).2 ++ [StopAction.clearLoops] ++ _
    exact List.mem_append.mpr (Or.inl (List.mem_append.mpr (Or.inl h.1)))
  · intro l hl hnrun
    exact (killPass_cancels_running st.activeLoops l hl).2
      (fun hc => hnrun hc.2)
  · exact ⟨(killPass st.activeLoops).2, rfl,
      killPass_actions_are_sigterms st.activeLoops⟩

/-- Witness for C6 on a concrete state: one running loop and one
completed loop, with a live server.  The running loop is SIGTERMed and
cancelled, the completed one untouched, and the trace ends with the map
clear followed by the server close. -/
theorem apiStop_cancels_then_clears_then_closes_witness :
    (apiStop ⟨some 1,
      [⟨"loop-1", some 11, 3, 1, LoopStatus.running, [], "t1"⟩,
       ⟨"loop-2", some 12, 2, 2, LoopStatus.completed, [], "t2"⟩]⟩).2.2 =
      [StopAction.sigterm "loop-1", StopAction.clearLoops,
       StopAction.closeServer] ∧
    StopAction.sigterm "loop-1" ∈ (apiStop ⟨some 1,
      [⟨"loop-1", some 11, 3, 1, LoopStatus.running, [], "t1"⟩,
       ⟨"loop-2", some 12, 2, 2, LoopStatus.completed, [], "t2"⟩]⟩).2.2 ∧
    (⟨"loop-1", some 11, 3, 1, LoopStatus.cancelled, [], "t1"⟩ :
        LoopProcess) ∈ (apiStop ⟨some 1,
      [⟨"loop-1", some 11, 3, 1, LoopStatus.running, [], "t1"⟩,
       ⟨"loop-2", some 12, 2, 2, LoopStatus.completed, [], "t2"⟩]⟩).2.1 := by
  refine ⟨by decide, ?_⟩
  have h := (apiStop_cancels_then_clears_then_closes ⟨some 1,
      [⟨"loop-1", some 11, 3, 1, LoopStatus.running, [], "t1"⟩,
       ⟨"loop-2", some 12, 2, 2, LoopStatus.completed, [], "t2"⟩]⟩
    (by intro l hl; fin_cases hl <;> rfl)).1
    ⟨"loop-1", some 11, 3, 1, LoopStatus.running, [], "t1"⟩
    (by simp) rfl
  exact h

/-- `STATUS_WEIGHTS` (useSessions.ts): working 100, waiting 50, idle 1. -/
def STATUS_WEIGHTS : SessionStatus → ℚ
  | SessionStatus.working => 100
  | SessionStatus.waiting => 50
  | SessionStatus.idle => 1

/-- `PENDING_TOOL_BONUS` (useSessions.ts). -/
def PENDING_TOOL_BONUS : ℚ := 30

/-- `calculateRepoActivityScore` (useSessions.ts).  The floating-point
`Math.pow(0.5, ageMinutes / 30)` decay is kept abstract as `powHalf`
applied to the exponent `ageMinutes / 30`; all other arithmetic is exact
over `ℚ`. -/
def calculateRepoActivityScore (now : Int) (powHalf : ℚ → ℚ)
    (sessions : List Session) : ℚ :=
  sessions.foldl
    (fun score session =>
      score +
        (STATUS_WEIGHTS session.status +
            (if session.hasPendingToolUse then PENDING_TOOL_BONUS else 0)) *
          powHalf ((((now - session.lastActivityAt : Int) : ℚ) / (1000 * 60)) / 30))
    0

/-- A repo group returned by `groupSessionsByRepo` (useSessions.ts). -/
structure RepoGroup where
  repoId : String
  repoUrl : Option String
  sessions : List Session
  activityScore : ℚ
deriving DecidableEq, Repr

/-- The grouping key `session.gitRepoId ?? "Other"`. -/
def sessionRepoKey (s : Session) : String :=
  s.gitRepoId.getD "Other"

/-- One step of the grouping `Map`: `groups.get(key) ?? []`, push, set.
A JS `Map` keeps insertion order, so a missing key is appended at the
end and an existing key keeps its position with the session appended to
its bucket. -/
def addToGroups : List (String × List Session) → String → Session →
    List (String × List Session)
  | [], key, s => [(key, [s])]
  | (k, ss) :: rest, key, s =>
    if k = key then (k, ss ++ [s]) :: rest
    else (k, ss) :: addToGroups rest key s

/-- The grouping loop of `groupSessionsByRepo`. -/
def buildGroups (sessions : List Session) : List (String × List Session) :=
  sessions.foldl (fun gs s => addToGroups gs (sessionRepoKey s) s) []

/-- The `Array.from(groups.entries()).map(...)` step of
`groupSessionsByRepo`. -/
def repoGroupOf (now : Int) (powHalf : ℚ → ℚ)
    (p : String × List Session) : RepoGroup :=
  { repoId := p.1
    repoUrl := if p.1 = "Other" then none
      else some ("https://github.com/" ++ p.1)
    sessions := p.2
    activityScore := calculateRepoActivityScore now powHalf p.2 }

/-- `groupSessionsByRepo` (useSessions.ts): group by repo key, build the
group records, then `sort((a, b) => b.activityScore - a.activityScore)`
(a stable descending sort by activity score). -/
def groupSessionsByRepo (now : Int) (powHalf : ℚ → ℚ)
    (sessions : List Session) : List RepoGroup :=
  ((buildGroups sessions).map (repoGroupOf now powHalf)).mergeSort
    (fun a b => decide (b.activityScore ≤ a.activityScore))

/-- Adding one session to the grouping map adds exactly that session to
the multiset of grouped sessions. -/
theorem addToGroups_flatten_perm (k : String) (s : Session) :
    ∀ gs : List (String × List Session),
      ((addToGroups gs k s).map Prod.snd).flatten.Perm
        ((gs.map Prod.snd).flatten ++ [s]) := by
  intro gs
  induction gs with
  | nil => simp [addToGroups]
  | cons hd tl ih =>
    obtain ⟨k', ss⟩ := hd
    by_cases hk : k' = k
    · simp only [addToGroups, if_pos hk, List.map_cons, List.flatten_cons]
      rw [List.append_assoc, List.append_assoc]
      exact List.Perm.append_left ss List.perm_append_comm
    · simp only [addToGroups, if_neg hk, List.map_cons, List.flatten_cons]
      rw [List.append_assoc]
      exact List.Perm.append_left ss ih

/-- The grouping loop is multiset-preserving relative to its accumulator. -/
theorem buildGroups_foldl_flatten_perm :
    ∀ (l : List Session) (gs : List (String × List Session)),
      ((l.foldl (fun gs s => addToGroups gs (sessionRepoKey s) s) gs).map
        Prod.snd).flatten.Perm ((gs.map Prod.snd).flatten ++ l) := by
  intro l
  induction l with
  | nil =>
    intro gs
    simp
  | cons s l ih =>
    intro gs
    simp only [List.foldl_cons]
    have h1 := ih (addToGroups gs (sessionRepoKey s) s)
    have h2 := List.Perm.append_right l
      (addToGroups_flatten_perm (sessionRepoKey s) s gs)
    have h3 := h1.trans h2
    rw [List.append_assoc] at h3
    simpa using h3

/-- The grouped buckets together hold exactly the input sessions. -/
theorem buildGroups_flatten_perm (sessions : List Session) :
    ((buildGroups sessions).map Prod.snd).flatten.Perm sessions := by
  have h := buildGroups_foldl_flatten_perm sessions []
  simpa [buildGroups] using h

/-- Every session in a bucket of the grouping map carries that bucket's
key, and this is preserved when a session is filed under its own key. -/
theorem addToGroups_keyed (k : String) (s : Session)
    (hs : sessionRepoKey s = k) :
    ∀ gs : List (String × List Session),
      (∀ p ∈ gs, ∀ x ∈ p.2, sessionRepoKey x = p.1) →
      ∀ p ∈ addToGroups gs k s, ∀ x ∈ p.2, sessionRepoKey x = p.1 := by
  intro gs
  induction gs with
  | nil =>
    intro _ p hp x hx
    simp only [addToGroups, List.mem_singleton] at hp
    subst hp
    simp only [List.mem_singleton] at hx
    subst hx
    exact hs
  | cons hd tl ih =>
    intro hgs p hp x hx
    obtain ⟨k', ss⟩ := hd
    by_cases hk : k' = k
    · simp only [addToGroups, if_pos hk] at hp
      rcases List.mem_cons.mp hp with heq | htl
      · subst heq
        rcases List.mem_append.mp hx with hss | hsx
        · exact hgs (k', ss) (List.mem_cons_self _ _) x hss
        · simp only [List.mem_singleton] at hsx
          subst hsx
          rw [hs]
          exact hk.symm
      · exact hgs p (List.mem_cons_of_mem _ htl) x hx
    · simp only [addToGroups, if_neg hk] at hp
      rcases List.mem_cons.mp hp with heq | htl
      · subst heq
        exact hgs (k', ss) (List.mem_cons_self _ _) x hx
      · exact ih (fun q hq => hgs q (List.mem_cons_of_mem _ hq)) p htl x hx

/-- Every bucket of the grouping map holds only sessions keyed to it. -/
theorem buildGroups_keyed_all (sessions : List Session) :
    ∀ p ∈ buildGroups sessions, ∀ x ∈ p.2, sessionRepoKey x = p.1 := by
  suffices h : ∀ (l : List Session) (gs : List (String × List Session)),
      (∀ p ∈ gs, ∀ x ∈ p.2, sessionRepoKey x = p.1) →
      ∀ p ∈ l.foldl (fun gs s => addToGroups gs (sessionRepoKey s) s) gs,
        ∀ x ∈ p.2, sessionRepoKey x = p.1 by
    exact h sessions [] (by simp)
  intro l
  induction l with
  | nil =>
    intro gs hgs
    simpa using hgs
  | cons s l ih =>
    intro gs hgs
    simp only [List.foldl_cons]
    exact ih _ (addToGroups_keyed (sessionRepoKey s) s rfl gs hgs)

/-- Filing a session leaves the key list unchanged when its key already
exists, and appends the key at the end otherwise. -/
theorem addToGroups_keys (k : String) (s : Session) :
    ∀ gs : List (String × List Session),
      (addToGroups gs k s).map Prod.fst =
        if k ∈ gs.map Prod.fst then gs.map Prod.fst
        else gs.map Prod.fst ++ [k] := by
  intro gs
  induction gs with
  | nil => simp [addToGroups]
  | cons hd tl ih =>
    obtain ⟨k', ss⟩ := hd
    by_cases hk : k' = k
    · subst hk
      simp [addToGroups]
    · simp only [addToGroups, if_neg hk, List.map_cons, ih]
      by_cases hmem : k ∈ tl.map Prod.fst <;>
        simp [List.mem_cons, hmem, Ne.symm hk]

/-- Filing a session preserves distinctness of the grouping keys. -/
theorem addToGroups_keys_nodup (k : String) (s : Session)
    (gs : List (String × List Session))
    (h : (gs.map Prod.fst).Nodup) :
    ((addToGroups gs k s).map Prod.fst).Nodup := by
  rw [addToGroups_keys]
  by_cases hmem : k ∈ gs.map Prod.fst
  · rwa [if_pos hmem]
  · rw [if_neg hmem]
    refine h.append (List.nodup_singleton k) ?_
    intro a ha hb
    simp only [List.mem_singleton] at hb
    subst hb
    exact hmem ha

/-- The grouping map never holds two buckets with the same key. -/
theorem buildGroups_keys_nodup (sessions : List Session) :
    ((buildGroups sessions).map Prod.fst).Nodup := by
  suffices h : ∀ (l : List Session) (gs : List (String × List Session)),
      (gs.map Prod.fst).Nodup →
      ((l.foldl (fun gs s => addToGroups gs (sessionRepoKey s) s) gs).map
        Prod.fst).Nodup by
    exact h sessions [] (by simp)
  intro l
  induction l with
  | nil =>
    intro gs hgs
    simpa using hgs
  | cons s l ih =>
    intro gs hgs
    simp only [List.foldl_cons]
    exact ih _ (addToGroups_keys_nodup (sessionRepoKey s) s gs hgs)

/-- C9: `groupSessionsByRepo` partitions its input — the groups' session
lists together are a permutation of the input, every session sits in the
group keyed by its `gitRepoId` (defaulted to "Other"), group keys are
pairwise distinct, the "Other" group's `repoUrl` is null while every other
group's is `https://github.com/` followed by its key, and the groups come
out sorted in non-increasing order of `activityScore`. -/
theorem groupSessionsByRepo_partitions_and_sorts (now : Int)
    (powHalf : ℚ → ℚ) (sessions : List Session) :
    (((groupSessionsByRepo now powHalf sessions).map
        RepoGroup.sessions).flatten.Perm sessions) ∧
    (∀ g ∈ groupSessionsByRepo now powHalf sessions, ∀ s ∈ g.sessions,
       s.gitRepoId.getD "Other" = g.repoId) ∧
    ((groupSessionsByRepo now powHalf sessions).map RepoGroup.repoId).Nodup ∧
    (∀ g ∈ groupSessionsByRepo now powHalf sessions,
       g.repoUrl = if g.repoId = "Other" then none
         else some ("https://github.com/" ++ g.repoId)) ∧
    (groupSessionsByRepo now powHalf sessions).Pairwise
      (fun a b => b.activityScore ≤ a.activityScore) := by
  have hperm : (groupSessionsByRepo now powHalf sessions).Perm
      ((buildGroups sessions).map (repoGroupOf now powHalf)) :=
    List.mergeSort_perm _ _
  refine ⟨?_, ?_, ?_, ?_, ?_⟩
  · have h1 : ((groupSessionsByRepo now powHalf sessions).map
        RepoGroup.sessions).Perm
        (((buildGroups sessions).map (repoGroupOf now powHalf)).map
          RepoGroup.sessions) := hperm.map _
    have h2 : (((buildGroups sessions).map (repoGroupOf now powHalf)).map
        RepoGroup.sessions) = (buildGroups sessions).map Prod.snd := by
      rw [List.map_map]
      rfl
    rw [h2] at h1
    exact h1.flatten.trans (buildGroups_flatten_perm sessions)
  · intro g hg s hs
    rcases List.mem_map.mp (hperm.mem_iff.mp hg) with ⟨p, hp, hpg⟩
    subst hpg
    exact buildGroups_keyed_all sessions p hp s hs
  · have h1 : ((groupSessionsByRepo now powHalf sessions).map
        RepoGroup.repoId).Perm
        (((buildGroups sessions).map (repoGroupOf now powHalf)).map
          RepoGroup.repoId) := hperm.map _
    have h2 : (((buildGroups sessions).map (repoGroupOf now powHalf)).map
        RepoGroup.repoId) = (buildGroups sessions).map Prod.fst := by
      rw [List.map_map]
      rfl
    rw [h2] at h1
    exact h1.nodup_iff.mpr (buildGroups_keys_nodup sessions)
  · intro g hg
    rcases List.mem_map.mp (hperm.mem_iff.mp hg) with ⟨p, hp, hpg⟩
    subst hpg
    rfl
  · have hs := @List.sorted_mergeSort RepoGroup
      (fun a b => decide (b.activityScore ≤ a.activityScore))
      (fun a b c hab hbc => by
        simp only [decide_eq_true_eq] at hab hbc ⊢
        exact le_trans hbc hab)
      (fun a b => by
        simpa using le_total b.activityScore a.activityScore)
      ((buildGroups sessions).map (repoGroupOf now powHalf))
    exact hs.imp (fun h => by simpa using h)

/-- Witness for C9 on a one-session input with no repository: the single
group is keyed "Other" with a null repoUrl and holds exactly that
session. -/
theorem groupSessionsByRepo_partitions_and_sorts_witness :
    (((groupSessionsByRepo 0 (fun _ => 1)
        [⟨"b", "/y", none, none, none, "p", SessionStatus.idle, 0, 1, false,
          none, "g", "s", [], none⟩]).map
        RepoGroup.sessions).flatten.Perm
      [⟨"b", "/y", none, none, none, "p", SessionStatus.idle, 0, 1, false,
        none, "g", "s", [], none⟩]) ∧
    ((⟨"Other", none,
        [⟨"b", "/y", none, none, none, "p", SessionStatus.idle, 0, 1, false,
          none, "g", "s", [], none⟩], 1⟩ : RepoGroup).repoUrl = none) := by
  constructor
  · exact (groupSessionsByRepo_partitions_and_sorts 0 (fun _ => 1) _).1
  · exact ((groupSessionsByRepo_partitions_and_sorts 0 (fun _ => 1)
      [⟨"b", "/y", none, none, none, "p", SessionStatus.idle, 0, 1, false,
        none, "g", "s", [], none⟩]).2.2.2.1
      ⟨"Other", none,
        [⟨"b", "/y", none, none, none, "p", SessionStatus.idle, 0, 1, false,
          none, "g", "s", [], none⟩], 1⟩
      (by
        simp only [groupSessionsByRepo, buildGroups, List.foldl_cons,
          List.foldl_nil, addToGroups, sessionRepoKey, List.map_cons,
          List.map_nil, List.mergeSort_singleton, repoGroupOf,
          calculateRepoActivityScore, STATUS_WEIGHTS, List.mem_singleton]
        norm_num)).trans (by decide)

/-- `needle` is a leading run of `hay` (character-list version of a
substring check). -/
def charsStartWith : List Char → List Char → Bool
  | _, [] => true
  | [], _ :: _ => false
  | c :: cs, d :: ds => c == d && charsStartWith cs ds

/-- `hay` contains `needle` somewhere (character-list version). -/
def charsContain : List Char → List Char → Bool
  | [], needle => needle.isEmpty
  | c :: rest, needle =>
    charsStartWith (c :: rest) needle || charsContain rest needle

/-- JavaScript `s.includes(sub)`. -/
def jsIncludes (s sub : String) : Bool :=
  charsContain s.toList sub.toList

/-- The completion marker `runIterations` looks for in the command
output. -/
def completeMarker : String := "<promise>COMPLETE</promise>"

/-- `ApiServer.handleStartLoop` (api.ts): `!iterations || iterations < 1`
answers 400 and registers nothing (`none` models a missing or non-numeric
body field, `0` is falsy); otherwise a fresh `LoopProcess` with
`currentIteration: 0`, `status: "running"`, empty output and a `null`
process placeholder is registered and the request is answered 200. -/
def handleStartLoop (iterations : Option Int) (loopId startedAt : String) :
    Nat × Option LoopProcess :=
  match iterations with
  | none => (400, none)
  | some n =>
    if n = 0 ∨ n < 1 then (400, none)
    else
      (200, some
        { id := loopId, process := none, iterations := n,
          currentIteration := 0, status := LoopStatus.running, output := [],
          startedAt := startedAt })

/-- Result of one awaited `claude` invocation inside `runIterations`:
`ok` carries the resolved stdout, `err` the rejection. -/
inductive CmdResult where
  | ok (out : String)
  | err (e : String)
deriving DecidableEq, Repr

/-- Environment of a `runIterations` run: the command outcome of each
iteration, and whether an external actor (stop or /api/loop/cancel) set
the loop's status to `cancelled` before iteration `i`'s status check. -/
structure IterEnv where
  result : Nat → CmdResult
  cancelBefore : Nat → Bool

/-- Observable schedule of a `runIterations` run: each loop-condition
status check, and each iteration actually started. -/
inductive IterEvent where
  | checked (i : Nat) (st : LoopStatus)
  | started (i : Nat)
deriving DecidableEq, Repr

/-- The epilogue of `runIterations`: a loop still `running` after the
`for` loop is marked `completed`. -/
def finishLoop (loop : LoopProcess) : LoopProcess :=
  if loop.status = LoopStatus.running then
    { loop with status := LoopStatus.completed }
  else loop

/-- The `for (let i = 1; i <= loop.iterations; i++)` body of
`ApiServer.runIterations`, with `fuel` remaining loop-condition successes
(`fuel = 0` models `i > loop.iterations`).  Each pass: apply any external
cancellation, check `loop.status !== "running"` (break when it fails),
set `currentIteration = i`, spawn the command (which stores the process
handle), then either log the error and fail, or push the output and
complete when the completion marker appears, or continue. -/
def runIterationsFrom (env : IterEnv) :
    Nat → Nat → LoopProcess → List IterEvent → LoopProcess × List IterEvent
  | 0, _, loop, trace => (finishLoop loop, trace)
  | fuel + 1, i, loop, trace =>
    let loop1 := if env.cancelBefore i then
      { loop with status := LoopStatus.cancelled } else loop
    let trace1 := trace ++ [IterEvent.checked i loop1.status]
    if loop1.status ≠ LoopStatus.running then
      (finishLoop loop1, trace1)
    else
      let loop2 :=
        { loop1 with currentIteration := (i : Int), process := some i }
      let trace2 := trace1 ++ [IterEvent.started i]
      match env.result i with
      | CmdResult.err e =>
        (finishLoop
          { loop2 with
              status := LoopStatus.failed,
              output := loop2.output ++
                ["Error in iteration " ++ toString i ++ ": " ++ e] },
         trace2)
      | CmdResult.ok out =>
        let loop3 := { loop2 with output := loop2.output ++
          ["=== Iteration " ++ toString i ++ " ===", out] }
        if jsIncludes out completeMarker then
          (finishLoop { loop3 with status := LoopStatus.completed }, trace2)
        else
          runIterationsFrom env fuel (i + 1) loop3 trace2

/-- `ApiServer.runIterations` (api.ts) on a freshly registered loop. -/
def runIterations (env : IterEnv) (loop : LoopProcess) :
    LoopProcess × List IterEvent :=
  runIterationsFrom env loop.iterations.toNat 1 loop []

/-- Every status check recorded in the trace saw `running`. -/
def allChecksRunning (trace : List IterEvent) : Prop :=
  ∀ e ∈ trace, ∀ i st, e = IterEvent.checked i st → st = LoopStatus.running

/-- After any status check that saw a non-`running` status, no iteration
is ever started. -/
def noStartAfterStop : List IterEvent → Prop
  | [] => True
  | IterEvent.checked _ st :: rest =>
    (st ≠ LoopStatus.running → ∀ e ∈ rest, ∀ j, e ≠ IterEvent.started j) ∧
    noStartAfterStop rest
  | IterEvent.started _ :: rest => noStartAfterStop rest

/-- `finishLoop` only touches the status field. -/
theorem finishLoop_currentIteration (l : LoopProcess) :
    (finishLoop l).currentIteration = l.currentIteration := by
  by_cases h : l.status = LoopStatus.running <;> simp [finishLoop, h]

/-- The empty trace has only running checks. -/
theorem allChecksRunning_nil : allChecksRunning [] := by
  intro e he
  simp at he

/-- Recording a running check preserves `allChecksRunning`. -/
theorem allChecksRunning_append_checked (t : List IterEvent) (i : Nat)
    (h : allChecksRunning t) :
    allChecksRunning (t ++ [IterEvent.checked i LoopStatus.running]) := by
  intro e he i' st' heq
  rcases List.mem_append.mp he with h1 | h2
  · exact h e h1 i' st' heq
  · simp only [List.mem_singleton] at h2
    subst h2
    injection heq with hi hst
    exact hst.symm

/-- Recording a started iteration preserves `allChecksRunning`. -/
theorem allChecksRunning_append_started (t : List IterEvent) (i : Nat)
    (h : allChecksRunning t) :
    allChecksRunning (t ++ [IterEvent.started i]) := by
  intro e he i' st' heq
  rcases List.mem_append.mp he with h1 | h2
  · exact h e h1 i' st' heq
  · simp only [List.mem_singleton] at h2
    subst h2
    simp at heq

/-- A trace whose checks all saw `running` has no start after a stop. -/
theorem noStartAfterStop_of_allRunning :
    ∀ t : List IterEvent, allChecksRunning t → noStartAfterStop t := by
  intro t
  induction t with
  | nil =>
    intro _
    trivial
  | cons e rest ih =>
    intro h
    have hrest : allChecksRunning rest :=
      fun x hx => h x (List.mem_cons_of_mem _ hx)
    cases e with
    | checked i st =>
      refine ⟨?_, ih hrest⟩
      intro hne
      exact absurd (h _ (List.mem_cons_self _ _) i st rfl) hne
    | started j =>
      exact ih hrest

/-- Appending a (possibly non-running) check as the final event of a trace
whose earlier checks all saw `running` yields a stop-respecting trace. -/
theorem noStartAfterStop_append_stop :
    ∀ t : List IterEvent, allChecksRunning t →
      ∀ (i : Nat) (st : LoopStatus),
        noStartAfterStop (t ++ [IterEvent.checked i st]) := by
  intro t
  induction t with
  | nil =>
    intro _ i st
    refine ⟨?_, trivial⟩
    intro _ e he
    simp at he
  | cons e rest ih =>
    intro h i st
    have hrest : allChecksRunning rest :=
      fun x hx => h x (List.mem_cons_of_mem _ hx)
    cases e with
    | checked i' st' =>
      have hst' : st' = LoopStatus.running :=
        h _ (List.mem_cons_self _ _) i' st' rfl
      refine ⟨?_, ih hrest i st⟩
      intro hne
      exact absurd hst' hne
    | started j =>
      exact ih hrest i st

/-- Invariant of the iteration loop: starting from index `i` with `fuel`
loop-condition successes remaining (`i + fuel = iterations + 1`), the
final `currentIteration` never exceeds `iterations`, every started
iteration index is at most `iterations`, and no iteration starts after a
status check that saw a non-running status. -/
theorem runIterationsFrom_inv (env : IterEnv) :
    ∀ (fuel i : Nat) (loop : LoopProcess) (trace : List IterEvent),
      loop.currentIteration ≤ loop.iterations →
      (i : Int) + (fuel : Int) = loop.iterations + 1 →
      allChecksRunning trace →
      (∀ j, IterEvent.started j ∈ trace → (j : Int) ≤ loop.iterations) →
      ((runIterationsFrom env fuel i loop trace).1.currentIteration ≤
        loop.iterations) ∧
      (∀ j, IterEvent.started j ∈ (runIterationsFrom env fuel i loop trace).2 →
        (j : Int) ≤ loop.iterations) ∧
      noStartAfterStop (runIterationsFrom env fuel i loop trace).2 := by
  intro fuel
  induction fuel with
  | zero =>
    intro i loop trace hcur hfuel hrun hstart
    simp only [runIterationsFrom]
    exact ⟨by simpa [finishLoop_currentIteration] using hcur, hstart,
      noStartAfterStop_of_allRunning trace hrun⟩
  | succ fuel ih =>
    intro i loop trace hcur hfuel hrun hstart
    have hile : (i : Int) ≤ loop.iterations := by
      push_cast at hfuel
      omega
    simp only [runIterationsFrom]
    cases hc : env.cancelBefore i with
    | true =>
      simp only [hc, if_true]
      refine ⟨by simpa [finishLoop_currentIteration] using hcur, ?_, ?_⟩
      · intro j hj
        rcases List.mem_append.mp hj with h1 | h2
        · exact hstart j h1
        · simp at h2
      · exact noStartAfterStop_append_stop trace hrun i _
    | false =>
      simp only [hc, Bool.false_eq_true, if_false]
      by_cases hst : loop.status = LoopStatus.running
      · simp only [hst, ne_eq, not_true_eq_false, if_false, reduceIte]
        have hrun2 : allChecksRunning
            ((trace ++ [IterEvent.checked i LoopStatus.running]) ++
              [IterEvent.started i]) :=
          allChecksRunning_append_started _ i
            (allChecksRunning_append_checked trace i hrun)
        have hstart2 : ∀ j,
            IterEvent.started j ∈
              (trace ++ [IterEvent.checked i LoopStatus.running]) ++
                [IterEvent.started i] →
            (j : Int) ≤ loop.iterations := by
          intro j hj
          rcases List.mem_append.mp hj with h1 | h2
          · rcases List.mem_append.mp h1 with h3 | h4
            · exact hstart j h3
            · simp at h4
          · simp only [List.mem_singleton, IterEvent.started.injEq] at h2
            subst h2
            exact hile
        cases hres : env.result i with
        | err e =>
          simp only [hres]
          exact ⟨by simpa [finishLoop_currentIteration] using hile, hstart2,
            noStartAfterStop_of_allRunning _ hrun2⟩
        | ok out =>
          simp only [hres]
          by_cases hinc : jsIncludes out completeMarker
          · simp only [hinc, if_true, reduceIte]
            exact ⟨by simpa [finishLoop_currentIteration] using hile, hstart2,
              noStartAfterStop_of_allRunning _ hrun2⟩
          · simp only [hinc, if_false, Bool.false_eq_true, reduceIte]
            have hrec := ih (i + 1)
              { loop with
                  currentIteration := (i : Int),
                  process := some i,
                  output := loop.output ++
                    ["=== Iteration " ++ toString i ++ " ===", out] }
              ((trace ++ [IterEvent.checked i LoopStatus.running]) ++
                [IterEvent.started i])
              hile
              (by
                show ((i + 1 : Nat) : Int) + (fuel : Int) =
                  loop.iterations + 1
                push_cast at hfuel ⊢
                omega)
              hrun2 hstart2
            simpa [hst] using hrec
      · rw [if_pos (show loop.status ≠ LoopStatus.running from hst)]
        refine ⟨by simpa [finishLoop_currentIteration] using hcur, ?_, ?_⟩
        · intro j hj
          rcases List.mem_append.mp hj with h1 | h2
          · exact hstart j h1
          · simp at h2
        · exact noStartAfterStop_append_stop trace hrun i _

/-- C10: a start-loop request with a missing, zero, or negative
`iterations` is answered 400 and registers no loop, so every registered
loop has `iterations >= 1`; and for every registered loop the iteration
loop keeps `currentIteration` at most `iterations`, starts only iteration
indices at most `iterations`, and starts no iteration after the loop's
status leaves `running`. -/
theorem start_loop_validation_and_iteration_invariants
    (iterations : Option Int) (loopId startedAt : String) (env : IterEnv) :
    (iterations = none →
      handleStartLoop iterations loopId startedAt = (400, none)) ∧
    (∀ n, iterations = some n → n < 1 →
      handleStartLoop iterations loopId startedAt = (400, none)) ∧
    (∀ loop, (handleStartLoop iterations loopId startedAt).2 = some loop →
      1 ≤ loop.iterations) ∧
    (∀ loop, (handleStartLoop iterations loopId startedAt).2 = some loop →
      (runIterations env loop).1.currentIteration ≤ loop.iterations ∧
      (∀ j, IterEvent.started j ∈ (runIterations env loop).2 →
        (j : Int) ≤ loop.iterations) ∧
      noStartAfterStop (runIterations env loop).2) := by
  have hfacts : ∀ loop,
      (handleStartLoop iterations loopId startedAt).2 = some loop →
      1 ≤ loop.iterations ∧ loop.currentIteration = 0 := by
    intro loop hreg
    cases iterations with
    | none => simp [handleStartLoop] at hreg
    | some n =>
      by_cases hv : n = 0 ∨ n < 1
      · simp [handleStartLoop, hv] at hreg
      · simp only [handleStartLoop, if_neg hv] at hreg
        have hl :
            ({ id := loopId, process := none, iterations := n,
               currentIteration := 0, status := LoopStatus.running,
               output := [], startedAt := startedAt } : LoopProcess) =
              loop := by
          simpa using hreg
        subst hl
        refine ⟨?_, rfl⟩
        show (1 : Int) ≤ n
        omega
  refine ⟨?_, ?_, fun loop hreg => (hfacts loop hreg).1, ?_⟩
  · intro h
    subst h
    rfl
  · intro n h hlt
    subst h
    simp only [handleStartLoop]
    rw [if_pos (Or.inr hlt)]
  · intro loop hreg
    obtain ⟨h1, h0⟩ := hfacts loop hreg
    exact runIterationsFrom_inv env loop.iterations.toNat 1 loop []
      (by rw [h0]; omega)
      (by omega)
      allChecksRunning_nil
      (by intro j hj; simp at hj)

/-- Witness for C10: a missing iterations count is rejected with 400, and
a concrete registered 2-iteration loop keeps `currentIteration` within
bounds. -/
theorem start_loop_validation_and_iteration_invariants_witness :
    handleStartLoop none "loop-1" "t0" = (400, none) ∧
    (1 : Int) ≤ (⟨"loop-1", none, 2, 0, LoopStatus.running, [], "t0"⟩ :
      LoopProcess).iterations ∧
    (runIterations ⟨fun _ => CmdResult.ok "", fun _ => false⟩
      ⟨"loop-1", none, 2, 0, LoopStatus.running, [], "t0"⟩).1.currentIteration ≤
      (⟨"loop-1", none, 2, 0, LoopStatus.running, [], "t0"⟩ :
        LoopProcess).iterations := by
  refine ⟨?_, ?_, ?_⟩
  · exact (start_loop_validation_and_iteration_invariants none "loop-1" "t0"
      ⟨fun _ => CmdResult.ok "", fun _ => false⟩).1 rfl
  · exact (start_loop_validation_and_iteration_invariants (some 2) "loop-1"
      "t0" ⟨fun _ => CmdResult.ok "", fun _ => false⟩).2.2.1
      ⟨"loop-1", none, 2, 0, LoopStatus.running, [], "t0"⟩ (by decide)
  · exact ((start_loop_validation_and_iteration_invariants (some 2) "loop-1"
      "t0" ⟨fun _ => CmdResult.ok "", fun _ => false⟩).2.2.2
      ⟨"loop-1", none, 2, 0, LoopStatus.running, [], "t0"⟩ (by decide)).1
